import Mathlib

/-!
Shallow embedding of `src/datasets/tinyimagenet.py` (class `TinyImageNetDataset`).

Paths are modelled as lists of path components (`os.path.join` is list append).
The filesystem is an abstract structure of query functions, mirroring the
facilities the code consumes: `os.path.isfile`, `os.path.isdir`, `os.listdir`
and line-by-line text reading.  Python strings are Lean `String`s; `str.strip`,
`str.split` on a tab, string comparison and `dict` are embedded below with
Python's semantics.  Python exceptions are an explicit error type, and fallible
operations return `Except`.
-/

namespace TinyImageNet

/-- Python `str.strip` whitespace set: space, tab, newline, carriage return,
vertical tab, form feed. -/
def isSpace (c : Char) : Bool :=
  c = ' ' || c = '\t' || c = '\n' || c = '\r' || c.toNat = 11 || c.toNat = 12

/-- Python `line.strip()`: drop leading and trailing whitespace. -/
def pyStrip (s : String) : String :=
  ⟨((s.data.dropWhile isSpace).reverse.dropWhile isSpace).reverse⟩

/-- Splitting a character list at every tab, as Python `str.split('\t')`:
`"" ↦ [""]`, and every tab separates two (possibly empty) fields. -/
def splitTab : List Char → List (List Char)
  | [] => [[]]
  | c :: cs =>
    let r := splitTab cs
    if c = '\t' then [] :: r
    else
      match r with
      | [] => [[c]]
      | g :: gs => (c :: g) :: gs

/-- Python `s.split('\t')`. -/
def pySplitTab (s : String) : List String :=
  (splitTab s.data).map (fun l => ⟨l⟩)

/-- Lexicographic `≤` on character lists by code point, as Python compares
strings. -/
def lexLe : List Char → List Char → Bool
  | [], _ => true
  | _ :: _, [] => false
  | a :: as, b :: bs => if a = b then lexLe as bs else decide (a.toNat < b.toNat)

/-- Python's `<=` on strings: lexicographic by code point. -/
def sLE (a b : String) : Prop :=
  lexLe a.data b.data = true

instance : DecidableRel sLE :=
  fun a b => inferInstanceAs (Decidable (lexLe a.data b.data = true))

/-- Python `dict` as an insertion-ordered association list.  Assignment
`d[k] = v` updates the value in place when the key is present, else appends. -/
def pyDictInsert {β : Type} (d : List (String × β)) (k : String) (v : β) :
    List (String × β) :=
  if d.any (fun p => p.1 == k) then
    d.map (fun p => if p.1 == k then (k, v) else p)
  else d ++ [(k, v)]

/-- Python `d.get(k)` / `k in d`: first (hence unique) entry for the key. -/
def pyDictGet {β : Type} (d : List (String × β)) (k : String) : Option β :=
  (d.find? (fun p => p.1 == k)).map (fun p => p.2)

/-- The filesystem facilities consumed by the code: `os.path.isfile`,
`os.path.isdir`, `os.listdir`, and reading a text file as its lines. -/
structure FS where
  isFile : List String → Bool
  isDir : List String → Bool
  listdir : List String → List String
  readLines : List String → List String

/-- Python exceptions raised by the code: `FileNotFoundError`, `ValueError`
(invalid split), `IndexError` (list subscript), `RuntimeError` (image decode
failure). -/
inductive PyError
  | fileNotFound
  | valueError
  | indexError
  | runtimeError
deriving DecidableEq

/-- The state built by `TinyImageNetDataset.__init__`: the sorted class
catalog `self.classes`, the dict `self.class_to_idx`, and the two parallel
sample lists `self.img_paths`, `self.labels`. -/
structure Dataset where
  classes : List String
  class_to_idx : List (String × Nat)
  img_paths : List (List String)
  labels : List Int
deriving DecidableEq

def wnidsPath (root : List String) : List String := root ++ ["wnids.txt"]

/-- `[line.strip() for line in f if line.strip()]` over `wnids.txt`. -/
def wnidsOf (fs : FS) (root : List String) : List String :=
  (fs.readLines (wnidsPath root)).filterMap (fun line =>
    let s := pyStrip line
    if s = "" then none else some s)

/-- `self.classes = sorted(wnids)`: Python `sorted` is a stable sort by `<=`;
on strings equal elements are identical, so insertion sort computes it. -/
def classCatalog (fs : FS) (root : List String) : List String :=
  List.insertionSort sLE (wnidsOf fs root)

/-- `self.class_to_idx = {wnid: idx for idx, wnid in enumerate(self.classes)}`. -/
def buildC2i (classes : List String) : List (String × Nat) :=
  classes.enum.foldl (fun d p => pyDictInsert d p.2 p.1) []

def trainClassDir (root : List String) (w : String) : List String :=
  root ++ ["train", w, "images"]

/-- The common shape of all three directory-scanning loops: for each directory
entry, either append one `(path, label)` sample to both parallel lists, or
skip the entry. -/
def collectStep (g : String → Option (List String × Int))
    (a : List (List String) × List Int) (fname : String) :
    List (List String) × List Int :=
  match g fname with
  | some pr => (a.1 ++ [pr.1], a.2 ++ [pr.2])
  | none => a

/-- Body of the inner loop of `_load_train_data`: a directory entry becomes a
sample iff it is a regular file. -/
def trainSampleOf (fs : FS) (dir : List String) (label : Nat) (fname : String) :
    Option (List String × Int) :=
  let fpath := dir ++ [fname]
  if fs.isFile fpath then some (fpath, (label : Int)) else none

/-- One iteration of the class loop of `_load_train_data`: skip the class when
its `images` directory is missing, else append one sample per regular file. -/
def trainStep (fs : FS) (root : List String)
    (acc : List (List String) × List Int) (p : String × Nat) :
    List (List String) × List Int :=
  if fs.isDir (trainClassDir root p.1) then
    (fs.listdir (trainClassDir root p.1)).foldl
      (collectStep (trainSampleOf fs (trainClassDir root p.1) p.2)) acc
  else acc

/-- `_load_train_data`: iterate `self.class_to_idx.items()` in insertion
order. -/
def loadTrain (fs : FS) (root : List String) (c2i : List (String × Nat)) :
    List (List String) × List Int :=
  c2i.foldl (trainStep fs root) ([], [])

/-- One line of `val_annotations.txt`: `parts = line.strip().split('\t')`;
entries with fewer than two fields are ignored, else
`img_to_wnid[parts[0]] = parts[1]`. -/
def parseAnnLine (d : List (String × String)) (line : String) :
    List (String × String) :=
  match pySplitTab (pyStrip line) with
  | imgName :: wnid :: _ => pyDictInsert d imgName wnid
  | _ => d

/-- The `img_to_wnid` dict built by `_load_val_data`. -/
def parseAnnotations (lines : List String) : List (String × String) :=
  lines.foldl parseAnnLine []

def valImagesDir (root : List String) : List String := root ++ ["val", "images"]

def valAnnFile (root : List String) : List String :=
  root ++ ["val", "val_annotations.txt"]

/-- Body of the file loop of `_load_val_data`: a directory entry becomes a
sample iff it is a regular file, has an annotation entry, and the annotated
wnid is a recognized class; the label is that class's index. -/
def valSampleOf (fs : FS) (imagesDir : List String)
    (ann : List (String × String)) (c2i : List (String × Nat))
    (fname : String) : Option (List String × Int) :=
  let fpath := imagesDir ++ [fname]
  if fs.isFile fpath then
    match pyDictGet ann fname with
    | none => none
    | some wnid =>
      match pyDictGet c2i wnid with
      | none => none
      | some idx => some (fpath, (idx : Int))
  else none

/-- The `img_to_wnid` dict of a given tree. -/
def valAnn (fs : FS) (root : List String) : List (String × String) :=
  parseAnnotations (fs.readLines (valAnnFile root))

/-- `_load_val_data`: raise `FileNotFoundError` when the annotations file is
absent; `os.listdir` itself raises `FileNotFoundError` when `val/images` is
absent (the code calls it unguarded). -/
def loadVal (fs : FS) (root : List String) (c2i : List (String × Nat)) :
    Except PyError (List (List String) × List Int) :=
  if fs.isFile (valAnnFile root) then
    if fs.isDir (valImagesDir root) then
      Except.ok ((fs.listdir (valImagesDir root)).foldl
        (collectStep (valSampleOf fs (valImagesDir root) (valAnn fs root) c2i))
        ([], []))
    else Except.error PyError.fileNotFound
  else Except.error PyError.fileNotFound

def testImagesDir (root : List String) : List String :=
  root ++ ["test", "images"]

/-- Body of the file loop of `_load_test_data`: every regular file becomes a
sample with placeholder label `-1`. -/
def testSampleOf (fs : FS) (dir : List String) (fname : String) :
    Option (List String × Int) :=
  let fpath := dir ++ [fname]
  if fs.isFile fpath then some (fpath, (-1 : Int)) else none

/-- `_load_test_data`: raise `FileNotFoundError` when `test/images` is
absent. -/
def loadTest (fs : FS) (root : List String) :
    Except PyError (List (List String) × List Int) :=
  if fs.isDir (testImagesDir root) then
    Except.ok ((fs.listdir (testImagesDir root)).foldl
      (collectStep (testSampleOf fs (testImagesDir root))) ([], []))
  else Except.error PyError.fileNotFound

/-- `TinyImageNetDataset.__init__`: check `wnids.txt` exists, build the sorted
catalog and index dict, then dispatch on the split (the `words.txt` handling
only fills the display-name table `idx_to_class` and affects no claim). -/
def mkDataset (fs : FS) (root : List String) (split : String) :
    Except PyError Dataset :=
  if fs.isFile (wnidsPath root) then
    if split = "train" then
      Except.ok ⟨classCatalog fs root, buildC2i (classCatalog fs root),
        (loadTrain fs root (buildC2i (classCatalog fs root))).1,
        (loadTrain fs root (buildC2i (classCatalog fs root))).2⟩
    else if split = "val" then
      match loadVal fs root (buildC2i (classCatalog fs root)) with
      | Except.ok pl =>
        Except.ok ⟨classCatalog fs root, buildC2i (classCatalog fs root),
          pl.1, pl.2⟩
      | Except.error e => Except.error e
    else if split = "test" then
      match loadTest fs root with
      | Except.ok pl =>
        Except.ok ⟨classCatalog fs root, buildC2i (classCatalog fs root),
          pl.1, pl.2⟩
      | Except.error e => Except.error e
    else Except.error PyError.valueError
  else Except.error PyError.fileNotFound

/-- `__len__`. -/
def Dataset.length (d : Dataset) : Nat := d.img_paths.length

/-- Python list subscript `xs[i]`: a negative index is offset by the length;
out of range raises `IndexError`. -/
def pyListGet {β : Type} (xs : List β) (i : Int) : Except PyError β :=
  let j : Int := if i < 0 then i + xs.length else i
  if h : 0 ≤ j ∧ j < (xs.length : Int) then
    Except.ok (xs.get ⟨j.toNat, by omega⟩)
  else Except.error PyError.indexError

/-- `__getitem__`: resolve path and label, decode the image (decoding is the
abstract function `dec`, returning `none` exactly when `Image.open(...)`
raises, which the code wraps in `RuntimeError`), then apply the optional
transform to the decoded image. -/
def getItem {Img : Type} (d : Dataset) (dec : List String → Option Img)
    (tf : Option (Img → Img)) (idx : Int) : Except PyError (Img × Int) :=
  match pyListGet d.img_paths idx with
  | Except.error e => Except.error e
  | Except.ok _imgPath =>
    match pyListGet d.labels idx with
    | Except.error e => Except.error e
    | Except.ok label =>
      match dec _imgPath with
      | none => Except.error PyError.runtimeError
      | some image =>
        let image2 : Img :=
          match tf with
          | some t => t image
          | none => image
        Except.ok (image2, label)

deriving instance DecidableEq for Except

/-! ### Characterizations of the three index builders -/

/-- The `(path, label)` pairs the train scan produces, as a comprehension:
one pair per regular file of each listed class directory, in `class_to_idx`
order, a missing class directory contributing nothing. -/
def trainPairs (fs : FS) (root : List String) (c2i : List (String × Nat)) :
    List (List String × Int) :=
  c2i.flatMap (fun p =>
    if fs.isDir (trainClassDir root p.1) then
      (fs.listdir (trainClassDir root p.1)).filterMap
        (trainSampleOf fs (trainClassDir root p.1) p.2)
    else [])

/-- The `(path, label)` pairs the val scan produces: one pair per listed
regular file whose annotation resolves to a recognized class. -/
def valPairs (fs : FS) (root : List String) (c2i : List (String × Nat)) :
    List (List String × Int) :=
  (fs.listdir (valImagesDir root)).filterMap
    (valSampleOf fs (valImagesDir root) (valAnn fs root) c2i)

/-- The `(path, label)` pairs the test scan produces: one pair per listed
regular file, each labeled `-1`. -/
def testPairs (fs : FS) (root : List String) : List (List String × Int) :=
  (fs.listdir (testImagesDir root)).filterMap
    (testSampleOf fs (testImagesDir root))

/-! ### Concrete fixture trees used by witnesses and counterexamples -/

/-- A small concrete TinyImageNet tree (root `[]`): two classes `n02`, `n01`
listed in that order in `wnids.txt` (plus a whitespace-only line); class
`n01` has one training image and one non-file directory entry, class `n02`
has no `images` directory; `val/images` holds three files of which only
`x.JPEG` has an annotation resolving to a recognized class (`y.JPEG` maps to
the unknown `n99`, `z.JPEG` is unannotated, and one annotation line is
short); `test/images` holds two files. -/
def fsEx : FS where
  isFile := fun p =>
    p == ["wnids.txt"] ||
    p == ["train", "n01", "images", "a.JPEG"] ||
    p == ["val", "val_annotations.txt"] ||
    p == ["val", "images", "x.JPEG"] ||
    p == ["val", "images", "y.JPEG"] ||
    p == ["val", "images", "z.JPEG"] ||
    p == ["test", "images", "t1.JPEG"] ||
    p == ["test", "images", "t2.JPEG"]
  isDir := fun p =>
    p == ["train", "n01", "images"] ||
    p == ["val", "images"] ||
    p == ["test", "images"]
  listdir := fun p =>
    if p == ["train", "n01", "images"] then ["a.JPEG", "subdir"]
    else if p == ["val", "images"] then ["x.JPEG", "y.JPEG", "z.JPEG"]
    else if p == ["test", "images"] then ["t1.JPEG", "t2.JPEG"]
    else []
  readLines := fun p =>
    if p == ["wnids.txt"] then ["n02\n", "n01\n", "  \n"]
    else if p == ["val", "val_annotations.txt"] then
      ["x.JPEG\tn02\t0\t0\n", "y.JPEG\tn99\t0\n", "junk\n"]
    else []

/-- A completely empty tree: no file and no directory exists. -/
def fsEmpty : FS where
  isFile := fun _ => false
  isDir := fun _ => false
  listdir := fun _ => []
  readLines := fun _ => []

/-- A tree holding `wnids.txt` and `val/val_annotations.txt` but no
directory at all — in particular no `val/images`. -/
def fsAnnOnly : FS where
  isFile := fun p =>
    p == ["wnids.txt"] || p == ["val", "val_annotations.txt"]
  isDir := fun _ => false
  listdir := fun _ => []
  readLines := fun p => if p == ["wnids.txt"] then ["n01"] else []

/-- The dataset `mkDataset fsEx [] "train"` evaluates to. -/
def dTrEx : Dataset :=
  ⟨["n01", "n02"], [("n01", 0), ("n02", 1)],
   [["train", "n01", "images", "a.JPEG"]], [0]⟩

/-- The dataset `mkDataset fsEx [] "val"` evaluates to. -/
def dVaEx : Dataset :=
  ⟨["n01", "n02"], [("n01", 0), ("n02", 1)],
   [["val", "images", "x.JPEG"]], [1]⟩

/-- The dataset `mkDataset fsEx [] "test"` evaluates to. -/
def dTeEx : Dataset :=
  ⟨["n01", "n02"], [("n01", 0), ("n02", 1)],
   [["test", "images", "t1.JPEG"], ["test", "images", "t2.JPEG"]], [-1, -1]⟩

/-! ### Order properties of the embedded string comparison -/

theorem char_eq_of_toNat_eq {a b : Char} (h : a.toNat = b.toNat) : a = b :=
  Char.ext (UInt32.ext h)

theorem lexLe_trans : ∀ x y z : List Char,
    lexLe x y = true → lexLe y z = true → lexLe x z = true
  | [], _, _, _, _ => rfl
  | _ :: _, [], _, h, _ => by simp [lexLe] at h
  | _ :: _, _ :: _, [], _, h => by simp [lexLe] at h
  | a :: as, b :: bs, c :: cs, h1, h2 => by
    simp only [lexLe] at h1 h2 ⊢
    by_cases hab : a = b
    · subst hab
      by_cases hbc : a = c
      · subst hbc
        simp only [if_pos rfl] at h1 h2 ⊢
        exact lexLe_trans as bs cs h1 h2
      · simp only [if_pos rfl] at h1
        simp only [if_neg hbc] at h2 ⊢
        exact h2
    · by_cases hbc : b = c
      · subst hbc
        simp only [if_neg hab] at h1 ⊢
        exact h1
      · simp only [if_neg hab] at h1
        simp only [if_neg hbc] at h2
        by_cases hac : a = c
        · subst hac
          exfalso
          simp only [decide_eq_true_eq] at h1 h2
          omega
        · simp only [if_neg hac, decide_eq_true_eq] at h1 h2 ⊢
          omega

theorem lexLe_total : ∀ x y : List Char, lexLe x y = true ∨ lexLe y x = true
  | [], _ => Or.inl rfl
  | _ :: _, [] => Or.inr rfl
  | a :: as, b :: bs => by
    by_cases hab : a = b
    · subst hab
      rcases lexLe_total as bs with h | h
      · exact Or.inl (by simp [lexLe, h])
      · exact Or.inr (by simp [lexLe, h])
    · have hba : b ≠ a := fun h => hab h.symm
      have hnat : a.toNat ≠ b.toNat := fun h => hab (char_eq_of_toNat_eq h)
      rcases Nat.lt_or_ge a.toNat b.toNat with h | h
      · exact Or.inl (by simp [lexLe, if_neg hab, h])
      · have h' : b.toNat < a.toNat := lt_of_le_of_ne h (fun e => hnat e.symm)
        exact Or.inr (by simp [lexLe, if_neg hba, h'])

theorem lexLe_antisymm : ∀ x y : List Char,
    lexLe x y = true → lexLe y x = true → x = y
  | [], [], _, _ => rfl
  | [], _ :: _, _, h => by simp [lexLe] at h
  | _ :: _, [], h, _ => by simp [lexLe] at h
  | a :: as, b :: bs, h1, h2 => by
    simp only [lexLe] at h1 h2
    by_cases hab : a = b
    · subst hab
      simp only [if_pos rfl] at h1 h2
      rw [lexLe_antisymm as bs h1 h2]
    · have hba : b ≠ a := fun h => hab h.symm
      simp only [if_neg hab, decide_eq_true_eq] at h1
      simp only [if_neg hba, decide_eq_true_eq] at h2
      omega

instance : IsTrans String sLE :=
  ⟨fun a b c h1 h2 => lexLe_trans a.data b.data c.data h1 h2⟩

instance : IsTotal String sLE :=
  ⟨fun a b => lexLe_total a.data b.data⟩

instance : IsAntisymm String sLE :=
  ⟨fun a b h1 h2 => by
    have h := lexLe_antisymm a.data b.data h1 h2
    cases a
    cases b
    exact congrArg String.mk h⟩

theorem foldl_collectStep (g : String → Option (List String × Int))
    (l : List String) (acc : List (List String) × List Int) :
    l.foldl (collectStep g) acc
      = (acc.1 ++ (l.filterMap g).map Prod.fst,
         acc.2 ++ (l.filterMap g).map Prod.snd) := by
  induction l generalizing acc with
  | nil => simp
  | cons x xs ih =>
    simp only [List.foldl_cons, List.filterMap_cons]
    cases hg : g x with
    | none => simp only [collectStep, hg, ih]
    | some pr =>
      simp only [collectStep, hg, ih, List.map_cons, List.cons_append,
        List.append_assoc, List.singleton_append, List.nil_append]

theorem foldl_trainStep (fs : FS) (root : List String)
    (c2i : List (String × Nat)) (acc : List (List String) × List Int) :
    c2i.foldl (trainStep fs root) acc
      = (acc.1 ++ (trainPairs fs root c2i).map Prod.fst,
         acc.2 ++ (trainPairs fs root c2i).map Prod.snd) := by
  induction c2i generalizing acc with
  | nil => simp [trainPairs]
  | cons p ps ih =>
    simp only [List.foldl_cons, trainPairs, List.flatMap_cons, List.map_append,
      List.append_assoc]
    by_cases hd : fs.isDir (trainClassDir root p.1) = true
    · rw [trainStep, if_pos hd, foldl_collectStep, ih]
      simp [trainPairs, List.append_assoc, hd]
    · rw [trainStep, if_neg hd, ih]
      simp [trainPairs, hd]

theorem loadTrain_eq (fs : FS) (root : List String) (c2i : List (String × Nat)) :
    loadTrain fs root c2i
      = ((trainPairs fs root c2i).map Prod.fst,
         (trainPairs fs root c2i).map Prod.snd) := by
  rw [loadTrain, foldl_trainStep]
  simp

theorem loadVal_ok_inv (fs : FS) (root : List String) (c2i : List (String × Nat))
    (pl : List (List String) × List Int) (h : loadVal fs root c2i = Except.ok pl) :
    fs.isFile (valAnnFile root) = true ∧ fs.isDir (valImagesDir root) = true ∧
    pl = ((valPairs fs root c2i).map Prod.fst,
          (valPairs fs root c2i).map Prod.snd) := by
  rw [loadVal] at h
  by_cases h1 : fs.isFile (valAnnFile root) = true
  · rw [if_pos h1] at h
    by_cases h2 : fs.isDir (valImagesDir root) = true
    · rw [if_pos h2, foldl_collectStep] at h
      refine ⟨h1, h2, ?_⟩
      cases h
      simp [valPairs]
    · rw [if_neg h2] at h
      exact absurd h (by simp)
  · rw [if_neg h1] at h
    exact absurd h (by simp)

theorem loadTest_ok_inv (fs : FS) (root : List String)
    (pl : List (List String) × List Int) (h : loadTest fs root = Except.ok pl) :
    fs.isDir (testImagesDir root) = true ∧
    pl = ((testPairs fs root).map Prod.fst, (testPairs fs root).map Prod.snd) := by
  rw [loadTest] at h
  by_cases h1 : fs.isDir (testImagesDir root) = true
  · rw [if_pos h1, foldl_collectStep] at h
    refine ⟨h1, ?_⟩
    cases h
    simp [testPairs]
  · rw [if_neg h1] at h
    exact absurd h (by simp)

theorem mkDataset_train_inv (fs : FS) (root : List String) (d : Dataset)
    (h : mkDataset fs root "train" = Except.ok d) :
    d.classes = classCatalog fs root ∧
    d.class_to_idx = buildC2i (classCatalog fs root) ∧
    d.img_paths
      = (trainPairs fs root (buildC2i (classCatalog fs root))).map Prod.fst ∧
    d.labels
      = (trainPairs fs root (buildC2i (classCatalog fs root))).map Prod.snd := by
  rw [mkDataset] at h
  by_cases hw : fs.isFile (wnidsPath root) = true
  · rw [if_pos hw, if_pos rfl] at h
    cases h
    exact ⟨rfl, rfl, by rw [loadTrain_eq], by rw [loadTrain_eq]⟩
  · rw [if_neg hw] at h
    exact absurd h (by simp)

theorem mkDataset_val_inv (fs : FS) (root : List String) (d : Dataset)
    (h : mkDataset fs root "val" = Except.ok d) :
    fs.isFile (valAnnFile root) = true ∧ fs.isDir (valImagesDir root) = true ∧
    d.classes = classCatalog fs root ∧
    d.class_to_idx = buildC2i (classCatalog fs root) ∧
    d.img_paths
      = (valPairs fs root (buildC2i (classCatalog fs root))).map Prod.fst ∧
    d.labels
      = (valPairs fs root (buildC2i (classCatalog fs root))).map Prod.snd := by
  rw [mkDataset] at h
  by_cases hw : fs.isFile (wnidsPath root) = true
  · rw [if_pos hw, if_neg (by decide), if_pos rfl] at h
    cases hlv : loadVal fs root (buildC2i (classCatalog fs root)) with
    | ok pl =>
      rw [hlv] at h
      cases h
      obtain ⟨h1, h2, h3⟩ := loadVal_ok_inv _ _ _ _ hlv
      refine ⟨h1, h2, rfl, rfl, ?_, ?_⟩ <;> rw [h3]
    | error e =>
      rw [hlv] at h
      exact absurd h (by simp)
  · rw [if_neg hw] at h
    exact absurd h (by simp)

theorem mkDataset_test_inv (fs : FS) (root : List String) (d : Dataset)
    (h : mkDataset fs root "test" = Except.ok d) :
    fs.isDir (testImagesDir root) = true ∧
    d.classes = classCatalog fs root ∧
    d.class_to_idx = buildC2i (classCatalog fs root) ∧
    d.img_paths = (testPairs fs root).map Prod.fst ∧
    d.labels = (testPairs fs root).map Prod.snd := by
  rw [mkDataset] at h
  by_cases hw : fs.isFile (wnidsPath root) = true
  · rw [if_pos hw, if_neg (by decide), if_neg (by decide), if_pos rfl] at h
    cases hlt : loadTest fs root with
    | ok pl =>
      rw [hlt] at h
      cases h
      obtain ⟨h1, h2⟩ := loadTest_ok_inv _ _ _ hlt
      refine ⟨h1, rfl, rfl, ?_, ?_⟩ <;> rw [h2]
    | error e =>
      rw [hlt] at h
      exact absurd h (by simp)
  · rw [if_neg hw] at h
    exact absurd h (by simp)

theorem mkDataset_ok_inv (fs : FS) (root : List String) (split : String)
    (d : Dataset) (h : mkDataset fs root split = Except.ok d) :
    d.classes = classCatalog fs root ∧
    d.class_to_idx = buildC2i (classCatalog fs root) ∧
    ∃ pairs : List (List String × Int),
      d.img_paths = pairs.map Prod.fst ∧ d.labels = pairs.map Prod.snd := by
  rw [mkDataset] at h
  by_cases hw : fs.isFile (wnidsPath root) = true
  · rw [if_pos hw] at h
    by_cases h1 : split = "train"
    · rw [if_pos h1] at h
      cases h
      exact ⟨rfl, rfl, trainPairs fs root (buildC2i (classCatalog fs root)),
        by rw [loadTrain_eq], by rw [loadTrain_eq]⟩
    · rw [if_neg h1] at h
      by_cases h2 : split = "val"
      · rw [if_pos h2] at h
        cases hlv : loadVal fs root (buildC2i (classCatalog fs root)) with
        | ok pl =>
          rw [hlv] at h
          cases h
          obtain ⟨_, _, h3⟩ := loadVal_ok_inv _ _ _ _ hlv
          exact ⟨rfl, rfl, valPairs fs root (buildC2i (classCatalog fs root)),
            by rw [h3], by rw [h3]⟩
        | error e =>
          rw [hlv] at h
          exact absurd h (by simp)
      · rw [if_neg h2] at h
        by_cases h3 : split = "test"
        · rw [if_pos h3] at h
          cases hlt : loadTest fs root with
          | ok pl =>
            rw [hlt] at h
            cases h
            obtain ⟨_, h4⟩ := loadTest_ok_inv _ _ _ hlt
            exact ⟨rfl, rfl, testPairs fs root, by rw [h4], by rw [h4]⟩
          | error e =>
            rw [hlt] at h
            exact absurd h (by simp)
        · rw [if_neg h3] at h
          exact absurd h (by simp)
  · rw [if_neg hw] at h
    exact absurd h (by simp)

/-! ### Python dict lemmas -/

theorem pyDictGet_map_ne {β : Type} (d : List (String × β)) (k k' : String)
    (v : β) (hne : k' ≠ k) :
    pyDictGet (d.map (fun p => if p.1 == k then (k, v) else p)) k'
      = pyDictGet d k' := by
  induction d with
  | nil => rfl
  | cons p t ih =>
    by_cases hp : p.1 = k
    · have hq : (if p.1 == k then (k, v) else p) = (k, v) := by
        simp [hp]
      rw [List.map_cons, hq, pyDictGet, pyDictGet,
        List.find?_cons_of_neg _ (by simp; exact fun h => hne h.symm),
        List.find?_cons_of_neg _ (by simp [hp]; exact fun h => hne h.symm)]
      exact ih
    · have hq : (if p.1 == k then (k, v) else p) = p := by
        simp [hp]
      rw [List.map_cons, hq]
      by_cases hk : p.1 = k'
      · rw [pyDictGet, pyDictGet, List.find?_cons_of_pos _ (by simp [hk]),
          List.find?_cons_of_pos _ (by simp [hk])]
      · rw [pyDictGet, pyDictGet, List.find?_cons_of_neg _ (by simp [hk]),
          List.find?_cons_of_neg _ (by simp [hk])]
        exact ih

theorem pyDictGet_map_self {β : Type} (d : List (String × β)) (k : String)
    (v : β) (hany : d.any (fun p => p.1 == k) = true) :
    pyDictGet (d.map (fun p => if p.1 == k then (k, v) else p)) k = some v := by
  induction d with
  | nil => simp at hany
  | cons p t ih =>
    by_cases hp : p.1 = k
    · have hq : (if p.1 == k then (k, v) else p) = (k, v) := by
        simp [hp]
      rw [List.map_cons, hq, pyDictGet,
        List.find?_cons_of_pos _ (by simp)]
      rfl
    · have hq : (if p.1 == k then (k, v) else p) = p := by
        simp [hp]
      have hany' : t.any (fun p => p.1 == k) = true := by
        simp only [List.any_cons, Bool.or_eq_true] at hany
        rcases hany with h | h
        · exact absurd (by simpa using h) hp
        · exact h
      rw [List.map_cons, hq, pyDictGet, List.find?_cons_of_neg _ (by simp [hp])]
      exact ih hany'

theorem pyDictGet_insert {β : Type} (d : List (String × β)) (k k' : String)
    (v : β) :
    pyDictGet (pyDictInsert d k v) k'
      = if k' = k then some v else pyDictGet d k' := by
  rw [pyDictInsert]
  by_cases hany : d.any (fun p => p.1 == k) = true
  · rw [if_pos hany]
    by_cases hk : k' = k
    · subst hk
      rw [if_pos rfl, pyDictGet_map_self d k' v hany]
    · rw [if_neg hk, pyDictGet_map_ne d k k' v hk]
  · rw [if_neg hany]
    have hnone : d.find? (fun p => p.1 == k) = none := by
      rw [List.find?_eq_none]
      intro x hx
      intro hbeq
      exact hany (List.any_eq_true.mpr ⟨x, hx, hbeq⟩)
    by_cases hk : k' = k
    · subst hk
      rw [if_pos rfl, pyDictGet, List.find?_append, hnone]
      simp
    · rw [if_neg hk, pyDictGet, List.find?_append, pyDictGet]
      have h2 : List.find? (fun p => p.1 == k') [(k, v)] = none := by
        simp
        exact fun h => hk h.symm
      rw [h2, Option.or_none]

/-! ### The catalog index dict built over `enumerate(classes)` -/

theorem foldl_pyDictInsert_fresh :
    ∀ (ps : List (Nat × String)) (d : List (String × Nat)),
    (ps.map Prod.snd).Nodup → (∀ p ∈ ps, ∀ q ∈ d, q.1 ≠ p.2) →
    ps.foldl (fun d p => pyDictInsert d p.2 p.1) d
      = d ++ ps.map (fun p => (p.2, p.1))
  | [], d, _, _ => by simp
  | p :: t, d, hnd, hfresh => by
    have hany : ¬ d.any (fun q => q.1 == p.2) = true := by
      intro h
      obtain ⟨q, hq, hbeq⟩ := List.any_eq_true.mp h
      exact hfresh p (List.mem_cons_self p t) q hq (by simpa using hbeq)
    have hins : pyDictInsert d p.2 p.1 = d ++ [(p.2, p.1)] := by
      rw [pyDictInsert, if_neg hany]
    rw [List.foldl_cons, hins,
      foldl_pyDictInsert_fresh t (d ++ [(p.2, p.1)])
        (by simpa using hnd.of_cons)
        ?_]
    · simp
    · intro x hx q hq
      rcases List.mem_append.mp hq with hq | hq
      · exact hfresh x (List.mem_cons_of_mem p hx) q hq
      · have hqe : q = (p.2, p.1) := by simpa using hq
        subst hqe
        simp only [List.map_cons, List.nodup_cons] at hnd
        intro he
        apply hnd.1
        rw [show p.2 = x.2 from he]
        exact List.mem_map_of_mem Prod.snd hx

theorem buildC2i_eq (classes : List String) (hnd : classes.Nodup) :
    buildC2i classes = classes.enum.map (fun p => (p.2, p.1)) := by
  rw [buildC2i, foldl_pyDictInsert_fresh classes.enum []]
  · simp
  · rw [List.enum_map_snd]
    exact hnd
  · simp

theorem pyDictGet_enumFrom :
    ∀ (l : List String), l.Nodup → ∀ (n i : Nat) (hi : i < l.length),
    pyDictGet ((List.enumFrom n l).map (fun p => (p.2, p.1))) l[i]
      = some (n + i)
  | [], _, n, i, hi => by simp at hi
  | w :: t, hnd, n, 0, hi => by
    rw [List.enumFrom_cons, List.map_cons, List.getElem_cons_zero, pyDictGet,
      List.find?_cons_of_pos _ (by simp)]
    rfl
  | w :: t, hnd, n, i + 1, hi => by
    have hit : i < t.length := by
      simpa using Nat.lt_of_succ_lt_succ hi
    have hw : ¬ w = t[i] := by
      intro he
      apply (List.nodup_cons.mp hnd).1
      rw [he]
      exact List.getElem_mem hit
    rw [List.enumFrom_cons, List.map_cons, List.getElem_cons_succ, pyDictGet,
      List.find?_cons_of_neg _ (by simp [hw])]
    rw [show (List.find? (fun p => p.1 == t[i])
        ((List.enumFrom (n + 1) t).map (fun p => (p.2, p.1)))).map
          (fun p => p.2)
      = pyDictGet ((List.enumFrom (n + 1) t).map (fun p => (p.2, p.1))) t[i]
      from rfl]
    rw [pyDictGet_enumFrom t (List.nodup_cons.mp hnd).2 (n + 1) i hit]
    congr 1
    omega

/-- With distinct identifiers, looking the `i`-th catalog entry up in
`class_to_idx` yields exactly `i`. -/
theorem buildC2i_getElem (classes : List String) (hnd : classes.Nodup)
    (i : Nat) (hi : i < classes.length) :
    pyDictGet (buildC2i classes) classes[i] = some i := by
  rw [buildC2i_eq classes hnd]
  have h := pyDictGet_enumFrom classes hnd 0 i hi
  rw [List.enum]
  simpa using h

/-! ### Miscellaneous helpers for the claim theorems -/

theorem zip_map_fst_snd {α β : Type} (pairs : List (α × β)) :
    (pairs.map Prod.fst).zip (pairs.map Prod.snd) = pairs := by
  rw [List.zip_map']
  simp

theorem trainPath_inj {root : List String} {w w' f f' : String}
    (h : trainClassDir root w ++ [f] = trainClassDir root w' ++ [f']) :
    w = w' ∧ f = f' := by
  rw [trainClassDir, trainClassDir, List.append_assoc, List.append_assoc] at h
  have h2 := List.append_cancel_left h
  simp at h2
  exact ⟨h2.1, h2.2⟩

theorem singleton_suffix_inj {dir : List String} {f f' : String}
    (h : dir ++ [f] = dir ++ [f']) : f = f' := by
  have h2 := List.append_cancel_left h
  simpa using h2

theorem mem_trainPairs {fs : FS} {root : List String}
    {c2i : List (String × Nat)} {w : String} {lab : Nat} {f : String}
    (hw : (w, lab) ∈ c2i) (hd : fs.isDir (trainClassDir root w) = true)
    (hf : f ∈ fs.listdir (trainClassDir root w))
    (hreg : fs.isFile (trainClassDir root w ++ [f]) = true) :
    (trainClassDir root w ++ [f], (lab : Int)) ∈ trainPairs fs root c2i := by
  rw [trainPairs, List.mem_flatMap]
  refine ⟨(w, lab), hw, ?_⟩
  rw [if_pos hd, List.mem_filterMap]
  refine ⟨f, hf, ?_⟩
  simp only [trainSampleOf, hreg, if_pos]

theorem not_mem_trainPairs {fs : FS} {root : List String}
    {c2i : List (String × Nat)} {w : String} {f : String}
    (hd : fs.isDir (trainClassDir root w) = false) (lab : Int) :
    (trainClassDir root w ++ [f], lab) ∉ trainPairs fs root c2i := by
  intro hmem
  rw [trainPairs, List.mem_flatMap] at hmem
  obtain ⟨p, _, hmem⟩ := hmem
  by_cases hd' : fs.isDir (trainClassDir root p.1) = true
  · rw [if_pos hd', List.mem_filterMap] at hmem
    obtain ⟨f', _, hsome⟩ := hmem
    by_cases hreg : fs.isFile (trainClassDir root p.1 ++ [f']) = true
    · simp only [trainSampleOf, hreg, if_pos, Option.some.injEq, Prod.mk.injEq]
        at hsome
      have := (trainPath_inj hsome.1).1
      rw [this] at hd'
      rw [hd'] at hd
      cases hd
    · simp only [trainSampleOf, hreg] at hsome
      simp at hsome
  · rw [if_neg hd'] at hmem
    cases hmem

theorem mem_valPairs {fs : FS} {root : List String}
    {c2i : List (String × Nat)} {f w : String} {idx : Nat}
    (hf : f ∈ fs.listdir (valImagesDir root))
    (hreg : fs.isFile (valImagesDir root ++ [f]) = true)
    (hann : pyDictGet (valAnn fs root) f = some w)
    (hidx : pyDictGet c2i w = some idx) :
    (valImagesDir root ++ [f], (idx : Int)) ∈ valPairs fs root c2i := by
  rw [valPairs, List.mem_filterMap]
  refine ⟨f, hf, ?_⟩
  simp only [valSampleOf, hreg, if_pos, hann, hidx]

theorem valSampleOf_some_inv {fs : FS} {root : List String}
    {c2i : List (String × Nat)} {f : String} {pr : List String × Int}
    (h : valSampleOf fs (valImagesDir root) (valAnn fs root) c2i f = some pr) :
    fs.isFile (valImagesDir root ++ [f]) = true ∧
    ∃ w idx, pyDictGet (valAnn fs root) f = some w ∧
      pyDictGet c2i w = some idx ∧ pr = (valImagesDir root ++ [f], (idx : Int)) := by
  by_cases hreg : fs.isFile (valImagesDir root ++ [f]) = true
  · simp only [valSampleOf, hreg, if_pos] at h
    split at h
    · exact absurd h (by simp)
    · rename_i w hann
      split at h
      · exact absurd h (by simp)
      · rename_i idx hidx
        cases h
        exact ⟨hreg, w, idx, hann, hidx, rfl⟩
  · have hreg' : fs.isFile (valImagesDir root ++ [f]) = false := by
      simpa using hreg
    simp [valSampleOf, hreg'] at h

theorem testPairs_snd (fs : FS) (root : List String) :
    ∀ pr ∈ testPairs fs root, pr.2 = -1 := by
  intro pr hpr
  rw [testPairs, List.mem_filterMap] at hpr
  obtain ⟨f, _, hsome⟩ := hpr
  by_cases hb : fs.isFile (testImagesDir root ++ [f]) = true
  · simp only [testSampleOf, hb, if_pos, Option.some.injEq] at hsome
    rw [← hsome]
  · simp only [testSampleOf, hb] at hsome
    simp at hsome

theorem filterMap_testSampleOf_length (fs : FS) (dir : List String) :
    ∀ l : List String, (l.filterMap (testSampleOf fs dir)).length
      = (l.filter (fun f => fs.isFile (dir ++ [f]))).length
  | [] => rfl
  | f :: t => by
    by_cases hb : fs.isFile (dir ++ [f]) = true
    · simp [List.filterMap_cons, List.filter_cons, testSampleOf, hb,
        filterMap_testSampleOf_length fs dir t]
    · have hb' : fs.isFile (dir ++ [f]) = false := by
        simpa using hb
      simp [List.filterMap_cons, List.filter_cons, testSampleOf, hb',
        filterMap_testSampleOf_length fs dir t]

theorem pyListGet_out_of_range {β : Type} (xs : List β) (i : Int)
    (h : i ≥ (xs.length : Int) ∨ i < -(xs.length : Int)) :
    pyListGet xs i = Except.error PyError.indexError := by
  have hcond : ¬ (0 ≤ (if i < 0 then i + (xs.length : Int) else i) ∧
      (if i < 0 then i + (xs.length : Int) else i) < (xs.length : Int)) := by
    by_cases hneg : i < 0
    · rw [if_pos hneg]
      omega
    · rw [if_neg hneg]
      omega
  simp only [pyListGet, dif_neg hcond]

/-! ### Claim theorems -/

/-- C1: for every `wnids.txt` whose non-empty trimmed lines are the (distinct)
class identifiers, construction builds `classes` as the lexicographically
sorted sequence of those identifiers, assigns each identifier the dense
zero-based label equal to its position in that sorted order, and the catalog
and index mapping are independent of the original line order of the file. -/
theorem catalog_is_sorted_dense_order_independent (fs : FS) (root : List String)
    (split : String) (d : Dataset) (h : mkDataset fs root split = Except.ok d)
    (hnd : (wnidsOf fs root).Nodup) :
    d.classes.Sorted sLE ∧
    d.classes.Perm (wnidsOf fs root) ∧
    (∀ (i : Nat) (hi : i < d.classes.length),
      pyDictGet d.class_to_idx d.classes[i] = some i) ∧
    (∀ (fs2 : FS) (split2 : String) (d2 : Dataset),
      mkDataset fs2 root split2 = Except.ok d2 →
      (wnidsOf fs2 root).Perm (wnidsOf fs root) →
      d2.classes = d.classes ∧ d2.class_to_idx = d.class_to_idx) := by
  obtain ⟨hc, hcx, -⟩ := mkDataset_ok_inv fs root split d h
  have hsorted : (classCatalog fs root).Sorted sLE :=
    List.sorted_insertionSort sLE _
  have hperm : (classCatalog fs root).Perm (wnidsOf fs root) :=
    List.perm_insertionSort sLE _
  have hndc : (classCatalog fs root).Nodup := hperm.nodup_iff.mpr hnd
  refine ⟨hc ▸ hsorted, hc ▸ hperm, ?_, ?_⟩
  · intro i hi
    rw [hc] at hi
    simp only [hc, hcx]
    exact buildC2i_getElem _ hndc i hi
  · intro fs2 split2 d2 h2 hp2
    obtain ⟨hc2, hcx2, -⟩ := mkDataset_ok_inv fs2 root split2 d2 h2
    have hs2 : (classCatalog fs2 root).Sorted sLE :=
      List.sorted_insertionSort sLE _
    have hp2' : (classCatalog fs2 root).Perm (classCatalog fs root) :=
      ((List.perm_insertionSort sLE _).trans hp2).trans hperm.symm
    have he : classCatalog fs2 root = classCatalog fs root :=
      List.eq_of_perm_of_sorted hp2' hs2 hsorted
    constructor
    · rw [hc2, hc, he]
    · rw [hcx2, hcx, he]

/-- Witness for C1 at the fixture tree (`wnids.txt` lists `n02` before
`n01`, yet the catalog is the sorted `["n01", "n02"]`). -/
theorem catalog_is_sorted_dense_order_independent_witness :
    mkDataset fsEx [] "test" = Except.ok dTeEx ∧
    (wnidsOf fsEx []).Nodup ∧
    dTeEx.classes.Perm (wnidsOf fsEx []) :=
  ⟨by decide, by decide,
   (catalog_is_sorted_dense_order_independent fsEx [] "test" dTeEx
     (by decide) (by decide)).2.1⟩

/-- C2: under the train partition the sample index is exactly the
concatenation, in catalog order, of one `(path, class index)` pair per
regular file of each class's `images` directory; a class whose directory is
missing is skipped and contributes no sample. -/
theorem train_partition_indexes_class_directories (fs : FS)
    (root : List String) (d : Dataset)
    (h : mkDataset fs root "train" = Except.ok d) :
    d.img_paths.zip d.labels
      = trainPairs fs root (buildC2i (classCatalog fs root)) ∧
    (∀ (w : String) (lab : Nat),
      (w, lab) ∈ buildC2i (classCatalog fs root) →
      fs.isDir (trainClassDir root w) = true →
      ∀ f ∈ fs.listdir (trainClassDir root w),
        fs.isFile (trainClassDir root w ++ [f]) = true →
        (trainClassDir root w ++ [f], (lab : Int)) ∈ d.img_paths.zip d.labels) ∧
    (∀ (w f : String) (lab : Int), fs.isDir (trainClassDir root w) = false →
      (trainClassDir root w ++ [f], lab) ∉ d.img_paths.zip d.labels) := by
  obtain ⟨-, -, hp, hl⟩ := mkDataset_train_inv fs root d h
  have hzip : d.img_paths.zip d.labels
      = trainPairs fs root (buildC2i (classCatalog fs root)) := by
    rw [hp, hl, zip_map_fst_snd]
  refine ⟨hzip, ?_, ?_⟩
  · intro w lab hw hd f hf hreg
    rw [hzip]
    exact mem_trainPairs hw hd hf hreg
  · intro w f lab hd
    rw [hzip]
    exact not_mem_trainPairs hd lab

/-- Witness for C2 at the fixture tree (class `n01` contributes its one
regular file with label `0`; class `n02` has no directory and contributes
nothing). -/
theorem train_partition_indexes_class_directories_witness :
    mkDataset fsEx [] "train" = Except.ok dTrEx ∧
    dTrEx.img_paths.zip dTrEx.labels
      = trainPairs fsEx [] (buildC2i (classCatalog fsEx [])) :=
  ⟨by decide,
   (train_partition_indexes_class_directories fsEx [] dTrEx (by decide)).1⟩

/-- C3: under the val partition the sample index holds exactly the regular
files of `val/images` whose filename is annotated with a recognized class
identifier, labeled with that identifier's catalog index; an unannotated
file, or one annotated with an unrecognized identifier, is skipped without
error. -/
theorem val_partition_indexes_annotated_files (fs : FS) (root : List String)
    (d : Dataset) (h : mkDataset fs root "val" = Except.ok d) :
    d.img_paths.zip d.labels
      = valPairs fs root (buildC2i (classCatalog fs root)) ∧
    (∀ f ∈ fs.listdir (valImagesDir root),
      fs.isFile (valImagesDir root ++ [f]) = true →
      ∀ (w : String) (idx : Nat),
        pyDictGet (valAnn fs root) f = some w →
        pyDictGet (buildC2i (classCatalog fs root)) w = some idx →
        (valImagesDir root ++ [f], (idx : Int)) ∈ d.img_paths.zip d.labels) ∧
    (∀ f : String,
      (pyDictGet (valAnn fs root) f = none ∨
       (∃ w, pyDictGet (valAnn fs root) f = some w ∧
         pyDictGet (buildC2i (classCatalog fs root)) w = none)) →
      (valImagesDir root ++ [f]) ∉ d.img_paths) := by
  obtain ⟨-, -, -, -, hp, hl⟩ := mkDataset_val_inv fs root d h
  have hzip : d.img_paths.zip d.labels
      = valPairs fs root (buildC2i (classCatalog fs root)) := by
    rw [hp, hl, zip_map_fst_snd]
  refine ⟨hzip, ?_, ?_⟩
  · intro f hf hreg w idx hann hidx
    rw [hzip]
    exact mem_valPairs hf hreg hann hidx
  · intro f hskip hmem
    rw [hp, List.mem_map] at hmem
    obtain ⟨pr, hpr, hfst⟩ := hmem
    rw [valPairs, List.mem_filterMap] at hpr
    obtain ⟨f', -, hsome⟩ := hpr
    obtain ⟨-, w', idx', hann', hidx', hpr'⟩ := valSampleOf_some_inv hsome
    have hf' : f' = f := by
      apply singleton_suffix_inj
      rw [← hfst, hpr']
    rw [hf'] at hann'
    rcases hskip with hnone | ⟨w, hsomew, hcnone⟩
    · rw [hann'] at hnone
      cases hnone
    · rw [hann'] at hsomew
      cases hsomew
      rw [hidx'] at hcnone
      cases hcnone

/-- Witness for C3 at the fixture tree (`x.JPEG` annotated with the
recognized `n02` is indexed with label `1`; `y.JPEG` maps to the unknown
`n99` and `z.JPEG` is unannotated, both skipped). -/
theorem val_partition_indexes_annotated_files_witness :
    mkDataset fsEx [] "val" = Except.ok dVaEx ∧
    dVaEx.img_paths.zip dVaEx.labels
      = valPairs fsEx [] (buildC2i (classCatalog fsEx [])) :=
  ⟨by decide,
   (val_partition_indexes_annotated_files fsEx [] dVaEx (by decide)).1⟩

/-- C4: under the test partition construction fails with the missing-file
error when `test/images` is absent; on success every sample's label is `-1`
and `length()` equals the number of regular files under `test/images`. -/
theorem test_partition_sentinel_labels_and_length (fs : FS)
    (root : List String) :
    (fs.isDir (testImagesDir root) = false →
      mkDataset fs root "test" = Except.error PyError.fileNotFound) ∧
    (∀ d : Dataset, mkDataset fs root "test" = Except.ok d →
      (∀ l ∈ d.labels, l = -1) ∧
      d.length = ((fs.listdir (testImagesDir root)).filter
        (fun f => fs.isFile (testImagesDir root ++ [f]))).length) := by
  constructor
  · intro hdir
    have hlt : loadTest fs root = Except.error PyError.fileNotFound := by
      rw [loadTest, if_neg (by simp [hdir])]
    rw [mkDataset]
    by_cases hw : fs.isFile (wnidsPath root) = true
    · rw [if_pos hw, if_neg (by decide), if_neg (by decide), if_pos rfl, hlt]
    · rw [if_neg hw]
  · intro d h
    obtain ⟨-, -, -, hp, hl⟩ := mkDataset_test_inv fs root d h
    constructor
    · intro l hml
      rw [hl, List.mem_map] at hml
      obtain ⟨pr, hpr, hsnd⟩ := hml
      rw [← hsnd]
      exact testPairs_snd fs root pr hpr
    · rw [Dataset.length, hp, List.length_map, testPairs,
        filterMap_testSampleOf_length]

/-- Witness for C4: an empty tree fails with the missing-file error, and at
the fixture tree both test files are indexed with label `-1`. -/
theorem test_partition_sentinel_labels_and_length_witness :
    fsEmpty.isDir (testImagesDir []) = false ∧
    mkDataset fsEmpty [] "test" = Except.error PyError.fileNotFound ∧
    mkDataset fsEx [] "test" = Except.ok dTeEx ∧
    dTeEx.length = ((fsEx.listdir (testImagesDir [])).filter
      (fun f => fsEx.isFile (testImagesDir [] ++ [f]))).length :=
  ⟨by decide, (test_partition_sentinel_labels_and_length fsEmpty []).1 (by decide),
   by decide,
   ((test_partition_sentinel_labels_and_length fsEx []).2 dTeEx (by decide)).2⟩

/-- C5 counterexample: the claim says `get(index)` fails with `IndexError`
for every `index < 0`, but on a constructed dataset of length 2 the index
`-1` returns the last sample (Python list subscripts accept negative
indices down to `-length`). -/
theorem get_negative_index_counterexample :
    mkDataset fsEx [] "test" = Except.ok dTeEx ∧
    (-1 : Int) < 0 ∧
    getItem dTeEx (fun _ => some (0 : Nat)) none (-1) = Except.ok (0, -1) := by
  decide

/-- C5 (amended): `get(index)` fails with `IndexError` for
`index == length()` and for `index < -length()`; a negative index in
`[-length(), -1]` addresses a sample from the end, Python-style. -/
theorem get_out_of_range_is_index_error {Img : Type} (d : Dataset)
    (dec : List String → Option Img) (tf : Option (Img → Img)) (i : Int)
    (h : i = (d.length : Int) ∨ i < -(d.length : Int)) :
    getItem d dec tf i = Except.error PyError.indexError := by
  have hrange : i ≥ (d.img_paths.length : Int) ∨ i < -(d.img_paths.length : Int) := by
    rw [Dataset.length] at h
    omega
  rw [getItem, pyListGet_out_of_range d.img_paths i hrange]

/-- Witness for C5's amended theorem at indices `2 == length()` and
`-3 < -length()`. -/
theorem get_out_of_range_is_index_error_witness :
    ((2 : Int) = (dTeEx.length : Int) ∨ (2 : Int) < -(dTeEx.length : Int)) ∧
    getItem dTeEx (fun _ => some (0 : Nat)) none 2
      = Except.error PyError.indexError ∧
    getItem dTeEx (fun _ => some (0 : Nat)) none (-3)
      = Except.error PyError.indexError :=
  ⟨by decide,
   get_out_of_range_is_index_error dTeEx (fun _ => some (0 : Nat)) none 2
     (by decide),
   get_out_of_range_is_index_error dTeEx (fun _ => some (0 : Nat)) none (-3)
     (by decide)⟩

/-- C6: when a transform was supplied at construction, `get` on a valid
index whose image decodes successfully returns the pair
`(transform(decoded image), labels[index])`: the transform's return value
replaces the raw decoded image. -/
theorem get_applies_transform_after_decode {Img : Type} (d : Dataset)
    (dec : List String → Option Img) (t : Img → Img) (i : Int)
    (p : List String) (img : Img) (label : Int)
    (hp : pyListGet d.img_paths i = Except.ok p)
    (hl : pyListGet d.labels i = Except.ok label)
    (hdec : dec p = some img) :
    getItem d dec (some t) i = Except.ok (t img, label) := by
  simp only [getItem, hp, hl, hdec]

/-- Witness for C6: a transform returning the fixed marker `42` makes `get`
return the marker in place of the decoded image `7`. -/
theorem get_applies_transform_after_decode_witness :
    pyListGet dTeEx.img_paths 0 = Except.ok ["test", "images", "t1.JPEG"] ∧
    pyListGet dTeEx.labels 0 = Except.ok (-1) ∧
    getItem dTeEx (fun _ => some (7 : Nat)) (some (fun _ => 42)) 0
      = Except.ok (42, -1) :=
  ⟨by decide, by decide,
   get_applies_transform_after_decode dTeEx (fun _ => some (7 : Nat))
     (fun _ => 42) 0 ["test", "images", "t1.JPEG"] 7 (-1)
     (by decide) (by decide) (by decide)⟩

/-- C7: construction with the val partition fails with the missing-file
error when `val/images` or `val/val_annotations.txt` is absent (the former
because the unguarded `os.listdir` raises `FileNotFoundError`). -/
theorem val_partition_missing_file_error (fs : FS) (root : List String)
    (h : fs.isFile (valAnnFile root) = false ∨
         fs.isDir (valImagesDir root) = false) :
    mkDataset fs root "val" = Except.error PyError.fileNotFound := by
  have hlv : ∀ c2i, loadVal fs root c2i = Except.error PyError.fileNotFound := by
    intro c2i
    rw [loadVal]
    rcases h with h | h
    · rw [if_neg (by simp [h])]
    · by_cases h1 : fs.isFile (valAnnFile root) = true
      · rw [if_pos h1, if_neg (by simp [h])]
      · rw [if_neg h1]
  rw [mkDataset]
  by_cases hw : fs.isFile (wnidsPath root) = true
  · rw [if_pos hw, if_neg (by decide), if_pos rfl, hlv]
  · rw [if_neg hw]

/-- Witness for C7 at a tree holding `wnids.txt` and the annotations file
but no `val/images` directory. -/
theorem val_partition_missing_file_error_witness :
    (fsAnnOnly.isFile (valAnnFile []) = false ∨
     fsAnnOnly.isDir (valImagesDir []) = false) ∧
    mkDataset fsAnnOnly [] "val" = Except.error PyError.fileNotFound :=
  ⟨by decide, val_partition_missing_file_error fsAnnOnly [] (by decide)⟩

/-- C8: when `wnids.txt` is absent, construction fails with the missing-file
error under every partition selector (the check precedes the split dispatch,
so no directory scan runs and no dataset — hence no partial sample index —
is ever produced). -/
theorem missing_wnids_fails_before_scanning (fs : FS) (root : List String)
    (split : String) (h : fs.isFile (wnidsPath root) = false) :
    mkDataset fs root split = Except.error PyError.fileNotFound := by
  rw [mkDataset, if_neg (by simp [h])]

/-- Witness for C8 at the empty tree under the train partition. -/
theorem missing_wnids_fails_before_scanning_witness :
    fsEmpty.isFile (wnidsPath []) = false ∧
    mkDataset fsEmpty [] "train" = Except.error PyError.fileNotFound :=
  ⟨by decide, missing_wnids_fails_before_scanning fsEmpty [] "train" (by decide)⟩

/-- C9: every successfully constructed dataset, under any partition, carries
`img_paths` and `labels` of equal length — they are the two projections of
one list of `(path, label)` pairs — and `length()` is the length of
`img_paths`. -/
theorem sample_index_parallel_sequences (fs : FS) (root : List String)
    (split : String) (d : Dataset)
    (h : mkDataset fs root split = Except.ok d) :
    d.img_paths.length = d.labels.length ∧
    d.length = d.img_paths.length ∧
    ∃ pairs : List (List String × Int),
      d.img_paths = pairs.map Prod.fst ∧ d.labels = pairs.map Prod.snd := by
  obtain ⟨-, -, pairs, hp, hl⟩ := mkDataset_ok_inv fs root split d h
  exact ⟨by rw [hp, hl, List.length_map, List.length_map], rfl, pairs, hp, hl⟩

/-- Witness for C9 at the fixture tree's val partition. -/
theorem sample_index_parallel_sequences_witness :
    mkDataset fsEx [] "val" = Except.ok dVaEx ∧
    dVaEx.img_paths.length = dVaEx.labels.length :=
  ⟨by decide,
   (sample_index_parallel_sequences fsEx [] "val" dVaEx (by decide)).1⟩

/-- C10: in the val annotation dict, the last line for a filename wins —
appending a line that parses to `(name, wnid)` makes `name` map to `wnid`
regardless of earlier lines, and leaves every other filename's mapping
unchanged — while a line with fewer than two tab-separated fields is
ignored entirely. -/
theorem val_annotations_last_line_wins (pre : List String)
    (line name wnid : String) (rest : List String) (badline : String)
    (hline : pySplitTab (pyStrip line) = name :: wnid :: rest)
    (hbad : (pySplitTab (pyStrip badline)).length < 2) :
    pyDictGet (parseAnnotations (pre ++ [line])) name = some wnid ∧
    (∀ other, other ≠ name →
      pyDictGet (parseAnnotations (pre ++ [line])) other
        = pyDictGet (parseAnnotations pre) other) ∧
    parseAnnotations (pre ++ [badline]) = parseAnnotations pre := by
  have hstep : ∀ l : String,
      parseAnnotations (pre ++ [l]) = parseAnnLine (parseAnnotations pre) l := by
    intro l
    rw [parseAnnotations, parseAnnotations, List.foldl_append]
    rfl
  refine ⟨?_, ?_, ?_⟩
  · rw [hstep, parseAnnLine, hline, pyDictGet_insert, if_pos rfl]
  · intro other hot
    rw [hstep, parseAnnLine, hline, pyDictGet_insert, if_neg hot]
  · rw [hstep, parseAnnLine]
    cases hsp : pySplitTab (pyStrip badline) with
    | nil => rfl
    | cons a t =>
      cases t with
      | nil => rfl
      | cons b t2 =>
        rw [hsp] at hbad
        simp at hbad
        omega

/-- Witness for C10: the filename `a.JPEG` is first annotated with `n01`,
then with `n02`; the dict maps it to `n02`, and a short line is ignored. -/
theorem val_annotations_last_line_wins_witness :
    pySplitTab (pyStrip "a.JPEG\tn02\tx\n") = "a.JPEG" :: "n02" :: ["x"] ∧
    (pySplitTab (pyStrip "short\n")).length < 2 ∧
    pyDictGet (parseAnnotations
      (["a.JPEG\tn01\ty"] ++ ["a.JPEG\tn02\tx\n"])) "a.JPEG" = some "n02" :=
  ⟨by decide, by decide,
   (val_annotations_last_line_wins ["a.JPEG\tn01\ty"] "a.JPEG\tn02\tx\n"
     "a.JPEG" "n02" ["x"] "short\n" (by decide) (by decide)).1⟩

end TinyImageNet
